import Mathlib

/-!
Verification of the `pub-mwb-parser` program-extraction engine against its
natural-language specification.  The JavaScript sources are shallowly
embedded: DOM selections become explicit lists or records of the data the
code reads from them, network fetches become `Except` values supplied as
inputs, and JavaScript runtime values are modelled by the `JSVal` type.
-/

namespace PubMwb

/-! ## JavaScript character classes and basic string operations -/

/-- Characters recognised as whitespace by JavaScript (`String.trim`, the
regex class `\s`). -/
def isJsWhitespace (c : Char) : Bool :=
  c = ' ' || c = '\t' || c = '\n' || c = '\r' || c = '\x0b' || c = '\x0c' ||
  c = ' ' || c = ' ' || (' ' ≤ c && c ≤ ' ') ||
  c = ' ' || c = ' ' || c = ' ' || c = ' ' ||
  c = '　' || c = '﻿'

/-- JavaScript line terminators (the characters that `.` in a regex does not
match). -/
def isLineTerminator (c : Char) : Bool :=
  c = '\n' || c = '\r' || c = ' ' || c = ' '

/-- Model of JavaScript `String.prototype.trim`. -/
def jsTrim (s : String) : String :=
  String.mk (((s.data.dropWhile isJsWhitespace).reverse.dropWhile isJsWhitespace).reverse)

/-- Model of `replaceAll(c, d)` for single-character patterns. -/
def replaceAllChar (s : String) (a b : Char) : String :=
  String.mk (s.data.map (fun c => if c = a then b else c))

/-! ## JavaScript runtime values -/

/-- A model of the JavaScript values the embedded functions handle. -/
inductive JSVal where
  | null
  | undefinedVal
  | bool (b : Bool)
  | num (n : Int)
  | str (s : String)
  | arr (items : List JSVal)
  | obj (fields : List (String × JSVal))
  | error (msg : String)

/-- A thrown JavaScript error (`new Error(msg)` / a built-in `TypeError`). -/
structure JsError where
  msg : String
deriving DecidableEq, Repr

/-- Model of the strict comparison `v === 1`. -/
def JSVal.isNumOne : JSVal → Bool
  | .num 1 => true
  | _ => false

/-- Model of `typeof v === 'string'`. -/
def JSVal.isStr : JSVal → Bool
  | .str _ => true
  | _ => false

/-- Model of `v instanceof Error`. -/
def JSVal.isError : JSVal → Bool
  | .error _ => true
  | _ => false

/-- Model of `Array.isArray(v)`. -/
def JSVal.isArray : JSVal → Bool
  | .arr _ => true
  | _ => false

/-! ## `core/reference_text_parser.mjs`: shared text utilities -/

/-- Embeds `enforceIsString`: `typeof value === 'string' ? value : ''`. -/
def enforceIsString : JSVal → String
  | .str s => s
  | _ => ""

/-- The string version of `cleanText` applied to a value already known to be
a string: `s.trim().replaceAll(' ', ' ')` (the pattern is the
non-breaking-space character). -/
def cleanTextS (s : String) : String :=
  replaceAllChar (jsTrim s) ' ' ' '

/-- Embeds `cleanText(txt)`:
`enforceIsString(txt).trim().replaceAll(' ', ' ')`. -/
def cleanText (txt : JSVal) : String :=
  cleanTextS (enforceIsString txt)

/-- Replaces each maximal run of line-feed characters by a single one
(the call `replaceAll` with the regex of one-or-more line feeds); the flag
records whether the previous character was a line feed. -/
def collapseLBAux : Bool → List Char → List Char
  | _, [] => []
  | prevNl, c :: rest =>
    if c = '\n' then
      if prevNl then collapseLBAux true rest
      else '\n' :: collapseLBAux true rest
    else c :: collapseLBAux false rest

/-- Embeds `collapseConsecutiveLineBreaks(txt)`. -/
def collapseConsecutiveLineBreaks (txt : JSVal) : String :=
  String.mk (collapseLBAux false (enforceIsString txt).data)

/-! ## `core/util.mjs`: the result/error convention -/

/-- Embeds `withErrorHandling(asyncFunc)`.  The wrapped computation either
throws (`Except.error`) or returns a value, which may itself be an `Error`
instance; the wrapper always returns the `[error, result]` pair and never
re-raises.  The pair components are JavaScript values (`JSVal.null` for the
absent side). -/
def withErrorHandling {α : Type} (asyncFunc : α → Except JsError JSVal) (x : α) :
    JSVal × JSVal :=
  match asyncFunc x with
  | .error e => (JSVal.error e.msg, JSVal.null)
  | .ok v => if v.isError then (v, JSVal.null) else (JSVal.null, v)

/-! ## `tooltip_data_retriever.mjs`: payload validation -/

/-- Property access `v[k]`: throws a `TypeError` on `null`/`undefined`,
returns `undefined` for a missing key or a non-object. -/
def propAccess (v : JSVal) (k : String) : Except JsError JSVal :=
  match v with
  | .null => .error ⟨"TypeError: Cannot read properties of null"⟩
  | .undefinedVal => .error ⟨"TypeError: Cannot read properties of undefined"⟩
  | .obj fields =>
    match fields.lookup k with
    | some w => .ok w
    | none => .ok .undefinedVal
  | _ => .ok .undefinedVal

/-- The `.length` property as the code reads it: a number for arrays and
strings, `undefined` for other objects, a `TypeError` for `null`/`undefined`. -/
def lengthProp (v : JSVal) : Except JsError JSVal :=
  match v with
  | .null => .error ⟨"TypeError: Cannot read properties of null"⟩
  | .undefinedVal => .error ⟨"TypeError: Cannot read properties of undefined"⟩
  | .arr items => .ok (.num items.length)
  | .str s => .ok (.num s.length)
  | _ => .ok .undefinedVal

/-- Array destructuring `const [x] = v`: throws if `v` is not iterable,
yields `undefined` for an empty array. -/
def firstElement (v : JSVal) : Except JsError JSVal :=
  match v with
  | .arr [] => .ok .undefinedVal
  | .arr (x :: _) => .ok x
  | .str s =>
    match s.data with
    | [] => .ok .undefinedVal
    | c :: _ => .ok (.str (String.mk [c]))
  | _ => .error ⟨"TypeError: value is not iterable"⟩

/-- The test `typeof v !== 'string' || !v` used on `content` and
`articleClasses` (an empty string is falsy). -/
def notNonEmptyString (v : JSVal) : Bool :=
  match v with
  | .str s => s.isEmpty
  | _ => true

/-- Embeds `isJsonContentAcceptableForReferenceExtraction(json)` statement by
statement, including the `&&` in its first guard and the runtime errors that
property accesses on `undefined` raise. -/
def isJsonContentAcceptableForReferenceExtraction (json : JSVal) :
    Except JsError Bool := do
  let items ← propAccess json "items"
  let firstGuard ←
    if items.isArray then pure false
    else do
      let len ← lengthProp items
      pure (!len.isNumOne)
  let isValid1 := !firstGuard
  let itemData ← firstElement items
  let content ← propAccess itemData "content"
  let isValid2 := if notNonEmptyString content then false else isValid1
  let articleClasses ← propAccess itemData "articleClasses"
  let isValid3 := if notNonEmptyString articleClasses then false else isValid2
  pure isValid3

/-! ## `pub_mwb_program_selection_groups.mjs`: the Selection-Group Builder

A cheerio selection is modelled by the data the code reads from it: a DOM
element carries its tag name and an identifying payload. -/

/-- A DOM element as seen by the selection-group builder and the
group-by-heading walk: its tag name plus an identifying payload. -/
structure DomNode where
  tag : String
  payload : Nat
deriving DecidableEq, Repr

/-- Embeds `assertHeadlineDOMStructure(fieldMinistryHeadline,
christianLivingHeadline)`; the inputs are the two landmark counts the code
reads (the lengths of the two `> h2` child selections). -/
def assertHeadlineDOMStructure (fieldMinistryH2Count christianLivingH2Count : Nat) :
    Except JsError Unit :=
  if fieldMinistryH2Count ≠ 1 ∨ christianLivingH2Count ≠ 1 then
    .error ⟨"Unexpected number of elements for field ministry and christian living."⟩
  else
    .ok ()

/-- The selections produced by `getAndValidateGodsTreasuresSelections`. -/
structure GodsTreasuresSelections where
  spiritualGems : List DomNode
  bibleRead : List DomNode
deriving DecidableEq, Repr

/-- Embeds `getAndValidateGodsTreasuresSelections`; `points2and3` is the
selection `treasuresTalk.nextUntil(fieldMinistryHeadline)`, the span of
elements between the treasures-talk anchor and the field-ministry headline. -/
def getAndValidateGodsTreasuresSelections (points2and3 : List DomNode) :
    Except JsError GodsTreasuresSelections :=
  if points2and3.length ≠ 4 then
    .error ⟨"Unexpected number of elements for points 2 and 3. Expected 4, got " ++
      toString points2and3.length⟩
  else
    .ok ⟨points2and3.take 2, (points2and3.drop 2).take 2⟩

/-! ## `pub_mwb_scraper.mjs`: the group-by-heading walk -/

/-- One heading-plus-contents group produced by the walk; the element type
is a parameter because the field-ministry and christian-living walks read
different data off their elements. -/
structure HeadlineGroup (α : Type) where
  heading : α
  contents : List α
deriving DecidableEq, Repr

/-- Appends an element to the contents of the last group, if any
(`acc.at(-1)?.contents.push($el)`); with no group yet the element is
dropped. -/
def pushToLastGroup {α : Type} : List (HeadlineGroup α) → α → List (HeadlineGroup α)
  | [], _ => []
  | [g], el => [⟨g.heading, g.contents ++ [el]⟩]
  | g :: g2 :: gs, el => g :: pushToLastGroup (g2 :: gs) el

/-- One step of the `reduce` in `buildHeadlineToContentGroups`; `isH3`
embeds the test `$el.is('h3')`. -/
def headlineGroupStep {α : Type} (isH3 : α → Bool) (acc : List (HeadlineGroup α))
    (el : α) : List (HeadlineGroup α) :=
  if isH3 el then acc ++ [⟨el, []⟩] else pushToLastGroup acc el

/-- Embeds `buildHeadlineToContentGroups(fieldMinistry, $)`: a fold over the
flat sibling list that opens a new group at each level-3 heading and appends
every other element to the current group. -/
def buildHeadlineToContentGroups {α : Type} (isH3 : α → Bool) (els : List α) :
    List (HeadlineGroup α) :=
  els.foldl (headlineGroupStep isH3) []

/-! ## `pub_mwb_scraper.mjs`: shared extraction primitives -/

/-- Embeds `getSectionNumberFromElement($element)`; the input is the text of
the element.  The regex anchor requires one digit followed by a dot, and
`parseInt(text.split('.')[0], 10)` then reads that digit. -/
def getSectionNumberFromElement (elementText : String) : Except JsError Nat :=
  let t := cleanTextS elementText
  match t.data with
  | c :: '.' :: _ =>
    if c.isDigit then .ok (c.toNat - '0'.toNat)
    else .error ⟨"Unexpected section number for element [" ++ t ++ "]."⟩
  | _ => .error ⟨"Unexpected section number for element [" ++ t ++ "]."⟩

/-- Converts a nonempty list of decimal digits to a number
(`parseInt(digits, 10)`). -/
def digitsToNat (digits : List Char) : Nat :=
  digits.foldl (fun n c => n * 10 + (c.toNat - '0'.toNat)) 0

/-- Tries to match the time-box regex at the start of the character list:
an opening parenthesis, one or more digits, optional whitespace, the word
min with an optional plural s, a dot and a closing parenthesis. -/
def matchTimeAtPos (cs : List Char) : Option Nat :=
  match cs with
  | '(' :: rest =>
    let digits := rest.takeWhile Char.isDigit
    if digits.isEmpty then none
    else
      match (rest.dropWhile Char.isDigit).dropWhile isJsWhitespace with
      | 'm' :: 'i' :: 'n' :: r3 =>
        match r3 with
        | 's' :: '.' :: ')' :: _ => some (digitsToNat digits)
        | '.' :: ')' :: _ => some (digitsToNat digits)
        | _ => none
      | _ => none
  | _ => none

/-- Leftmost match of the time-box regex over the whole character list. -/
def findTimeBoxMatch : List Char → Option Nat
  | [] => none
  | c :: rest =>
    match matchTimeAtPos (c :: rest) with
    | some n => some n
    | none => findTimeBoxMatch rest

/-- Embeds `getTimeBoxFromElement($selection)`.  The input is the text of
the subdued-text line found under the selection, or `none` when the
selector matches nothing. -/
def getTimeBoxFromElement (subduedLineText : Option String) : Except JsError Nat :=
  match subduedLineText with
  | none => .error ⟨"No selection found for selector [.du-color--textSubdued]"⟩
  | some t =>
    match findTimeBoxMatch (cleanTextS t).data with
    | some n => .ok n
    | none => .error ⟨"No selection found for selector [.du-color--textSubdued]"⟩

/-- Decides whether the student-task regex (two parenthesised groups in
sequence, none of whose characters may be a line terminator) matches
somewhere in the text.  The state counts how much of the sequence
open-close-open-close has been seen; a line terminator resets an
unfinished match, as the dot in a JavaScript regex cannot cross it. -/
def twoParenStep (st : Nat) (c : Char) : Nat :=
  if st = 4 then 4
  else if isLineTerminator c then 0
  else if st = 0 then (if c = '(' then 1 else 0)
  else if st = 1 then (if c = ')' then 2 else 1)
  else if st = 2 then (if c = '(' then 3 else 2)
  else (if c = ')' then 4 else 3)

/-- The test of the student-task regex against the whole text. -/
def twoParenGroups (cs : List Char) : Bool :=
  cs.foldl twoParenStep 0 = 4

/-- The lookahead check of the contents-extraction regex: after optional
whitespace the next character must be an opening parenthesis. -/
def startsWithParenAfterWs (l : List Char) : Bool :=
  match l.dropWhile isJsWhitespace with
  | '(' :: _ => true
  | _ => false

/-- The lazy capture group of the contents-extraction regex: the shortest
prefix after which, skipping whitespace, an opening parenthesis follows; the
captured characters may not include a line terminator. -/
def ebpGroup : List Char → Option (List Char)
  | [] => none
  | c :: rest =>
    if startsWithParenAfterWs (c :: rest) then some []
    else if isLineTerminator c then none
    else
      match ebpGroup rest with
      | some g => some (c :: g)
      | none => none

/-- Scans for the leftmost closing parenthesis at which the
contents-extraction regex matches and returns its capture group. -/
def ebpFind : List Char → Option (List Char)
  | [] => none
  | c :: rest =>
    if c = ')' then
      match ebpGroup (rest.dropWhile isJsWhitespace) with
      | some g => some g
      | none => ebpFind rest
    else ebpFind rest

/-- Embeds `extractBetweenParentheses(text)`: the first match of the regex
that captures the text between a closing parenthesis and the next opening
parenthesis, with surrounding whitespace stripped; the unmatched text is
returned unchanged. -/
def extractBetweenParentheses (text : String) : String :=
  match ebpFind text.data with
  | some g => String.mk g
  | none => text

/-! ## `pub_mwb_scraper.mjs`: field-ministry extraction -/

/-- The outcome of `fetchAndParseAnchorReferenceOrThrow` for one anchor:
publication-type flags and normalised text (`PublicationRefData`). -/
structure PublicationRefData where
  isPubW : Bool
  isPubNwtsty : Bool
  parsedContent : String
deriving DecidableEq, Repr

deriving instance DecidableEq for Except

/-- An inline reference anchor: its visible text and the (already settled)
outcome of resolving it over the network. -/
structure RefAnchor where
  text : String
  resolved : Except JsError PublicationRefData
deriving DecidableEq, Repr

/-- A flat element of the field-ministry sub-tree: its tag, its text, the
text of its subdued-text line (`none` when the time-box selector matches
nothing) and its anchors in document order. -/
structure FMElem where
  tag : String
  text : String
  subduedLineText : Option String
  anchors : List RefAnchor
deriving DecidableEq, Repr

/-- A study point: mnemonic plus resolved contents. -/
structure StudyPoint where
  mnemonic : String
  contents : String
deriving DecidableEq, Repr

/-- `FieldMinistryAssignmentData` as the scraper builds it. -/
structure FieldMinistryAssignmentData where
  sectionNumber : Nat
  timeBox : Nat
  isStudentTask : Bool
  headline : String
  contents : String
  studyPoint : Option StudyPoint
deriving DecidableEq, Repr

/-- Embeds the async closure mapped over `assignmentGroups` in
`extractFieldMinistry`: section number and time box come from the heading
and first content element, the student-task regex decides whether a study
point is resolved from the last anchor. -/
def processAssignmentGroup (g : HeadlineGroup FMElem) :
    Except JsError FieldMinistryAssignmentData := do
  let assignmentContents ←
    match g.contents with
    | [] => .error ⟨"TypeError: Cannot read properties of undefined"⟩
    | c :: _ => .ok c
  let contentsText := cleanTextS assignmentContents.text
  let sectionNumber ← getSectionNumberFromElement g.heading.text
  let timeBox ← getTimeBoxFromElement assignmentContents.subduedLineText
  let isStudentTask := twoParenGroups contentsText.data
  let headline := (cleanTextS g.heading.text).drop 3
  if isStudentTask then do
    match assignmentContents.anchors.getLast? with
    | none => .error ⟨"Unable to find study point anchor."⟩
    | some anchor => do
      let refData ← anchor.resolved
      .ok ⟨sectionNumber, timeBox, isStudentTask, headline,
        extractBetweenParentheses contentsText,
        some ⟨cleanTextS anchor.text, refData.parsedContent⟩⟩
  else
    .ok ⟨sectionNumber, timeBox, isStudentTask, headline, contentsText, none⟩

/-- Embeds `extractFieldMinistry`: the group-by-heading walk followed by the
per-group assignment extraction, joined as `Promise.all` joins them (any
failure fails the whole call). -/
def extractFieldMinistry (els : List FMElem) :
    Except JsError (List FieldMinistryAssignmentData) :=
  (buildHeadlineToContentGroups (fun e => e.tag == "h3") els).mapM
    processAssignmentGroup

/-! ## `pub_mwb_scraper.mjs`: treasures-talk extraction -/

/-- A talk point as found in the document: its text and its reference
anchors in document order. -/
structure TalkPointInput where
  text : String
  refs : List RefAnchor
deriving DecidableEq, Repr

/-- A talk point as the scraper returns it: display text plus the footnote
ids assigned to its anchors. -/
structure TalkPoint where
  text : String
  footnotes : List Nat
deriving DecidableEq, Repr

/-- `TreasuresTalkData`; the `footnotes` object is modelled as the
association list of key-value pairs in insertion order. -/
structure TreasuresTalkData where
  sectionNumber : Nat
  timeBox : Nat
  heading : String
  points : List TalkPoint
  footnotes : List (Nat × String)
deriving DecidableEq, Repr

/-- The input `extractTreasuresTalk` reads from its selection: the text of
the section-number line, the subdued time-box line, the heading text and
the points. -/
structure TalkInput where
  sectionLineText : String
  subduedLineText : Option String
  headingText : String
  points : List TalkPointInput
deriving DecidableEq, Repr

/-- Replaces the first occurrence of `pat` by `rep`
(JavaScript `String.prototype.replace` with a string pattern). -/
def replaceFirstAux (pat rep : List Char) : List Char → List Char
  | [] => if pat.isEmpty then rep else []
  | c :: rest =>
    if pat.isPrefixOf (c :: rest) then rep ++ (c :: rest).drop pat.length
    else c :: replaceFirstAux pat rep rest

/-- String version of `replaceFirstAux`. -/
def replaceFirst (s pat rep : String) : String :=
  String.mk (replaceFirstAux pat.data rep.data s.data)

/-- Embeds the inner reference loop of `extractTreasuresTalk`: each anchor
increments the footnote counter, splices a marker into the point text,
resolves the reference and records id and resolved text.  Returns the final
counter, the final text, the ids assigned and the footnote entries added. -/
def processTalkRefs (key : Nat) (pointText : String) :
    List RefAnchor → Except JsError (Nat × String × List Nat × List (Nat × String))
  | [] => .ok (key, pointText, [], [])
  | r :: rs => do
    let key1 := key + 1
    let refText := cleanTextS r.text
    let newText := replaceFirst pointText refText (refText ++ "[^" ++ toString key1 ++ "]")
    let refData ← r.resolved
    let (kf, tf, ids, fns) ← processTalkRefs key1 newText rs
    .ok (kf, tf, key1 :: ids, (key1, refData.parsedContent) :: fns)

/-- Embeds the outer point loop of `extractTreasuresTalk`, threading the
footnote counter across points. -/
def processTalkPoints (key : Nat) :
    List TalkPointInput → Except JsError (Nat × List TalkPoint × List (Nat × String))
  | [] => .ok (key, [], [])
  | p :: ps => do
    let (k1, text, ids, fns) ← processTalkRefs key (cleanTextS p.text) p.refs
    let (k2, pts, fns2) ← processTalkPoints k1 ps
    .ok (k2, ⟨text, ids⟩ :: pts, fns ++ fns2)

/-- Embeds `extractTreasuresTalk(input)`. -/
def extractTreasuresTalk (input : TalkInput) : Except JsError TreasuresTalkData := do
  let sectionNumber ← getSectionNumberFromElement input.sectionLineText
  let timeBox ← getTimeBoxFromElement input.subduedLineText
  let (_, pts, fns) ← processTalkPoints 0 input.points
  .ok ⟨sectionNumber, timeBox, cleanTextS input.headingText, pts, fns⟩

/-! ## `pub_mwb_scraper.mjs`: weekly bible read extraction -/

/-- The resolved payload item of one reading-assignment anchor
(`BiblicalPassageItem`): the fields the extractor reads. -/
structure BibleAnchorData where
  url : String
  book : Nat
  caption : String
  first_chapter : Nat
  last_chapter : Nat
deriving DecidableEq, Repr

/-- `WeeklyBibleReadData` as the scraper builds it. -/
structure WeeklyBibleReadData where
  bookName : String
  bookNumber : Nat
  firstChapter : Nat
  lastChapter : Nat
  links : List String
deriving DecidableEq, Repr

/-- The lookahead of the caption regex: one or more digits followed by a
colon at the head of the list. -/
def digitsColonAt (l : List Char) : Bool :=
  !(l.takeWhile Char.isDigit).isEmpty &&
    (match l.dropWhile Char.isDigit with
     | ':' :: _ => true
     | _ => false)

/-- The lazy anchored group of the caption regex: the shortest prefix at
whose end the digits-colon lookahead holds; the prefix may not contain a
line terminator. -/
def bookNameAux : List Char → Option (List Char)
  | [] => none
  | c :: rest =>
    if digitsColonAt (c :: rest) then some []
    else if isLineTerminator c then none
    else
      match bookNameAux rest with
      | some p => some (c :: p)
      | none => none

/-- Embeds `extractBookNameFromTooltipCaption(caption)`. -/
def extractBookNameFromTooltipCaption (caption : String) : String :=
  match bookNameAux caption.data with
  | some p => jsTrim (String.mk p)
  | none => caption

/-- The mutable state of the anchor loop in `extractWeeklyBibleRead`. -/
structure BibleReadAccum where
  bookName : String
  bookNumber : Nat
  firstChapter : Nat
  lastChapter : Nat
  urlPathForLinks : String
deriving DecidableEq, Repr

/-- One iteration of the anchor loop: initialise the record from the first
anchor that finds `urlPathForLinks` still empty, then extend the chapter
bounds by minimum and maximum. -/
def bibleReadStep (acc : BibleReadAccum) (a : BibleAnchorData) : BibleReadAccum :=
  let acc1 :=
    if acc.urlPathForLinks = "" then
      { bookName := extractBookNameFromTooltipCaption a.caption,
        bookNumber := a.book,
        firstChapter := a.first_chapter,
        lastChapter := a.last_chapter,
        urlPathForLinks := a.url }
    else acc
  { acc1 with
    firstChapter := min acc1.firstChapter a.first_chapter,
    lastChapter := max acc1.lastChapter a.last_chapter }

/-- JavaScript `split('/')` on the character list of a path. -/
def splitSlash : List Char → List (List Char)
  | [] => [[]]
  | c :: rest =>
    if c = '/' then [] :: splitSlash rest
    else
      match splitSlash rest with
      | [] => [[c]]
      | p :: ps => (c :: p) :: ps

/-- JavaScript `join('/')` on a list of path segments. -/
def joinSlash : List (List Char) → List Char
  | [] => []
  | [p] => p
  | p :: q :: rest => p ++ '/' :: joinSlash (q :: rest)

/-- Builds one synthesized per-chapter link: split the first anchor's
resolved URL on slashes, substitute the chapter number for the last
segment, rejoin, and prepend the base URL and the language code taken from
the first anchor's href. -/
def mkChapterLink (urlPathForLinks languageCode : String) (chapter : Nat) : String :=
  let parts := splitSlash urlPathForLinks.data
  let parts2 := parts.set (parts.length - 1) (Nat.repr chapter).data
  "https://wol.jw.org" ++ languageCode ++ String.mk (joinSlash parts2)

/-- Embeds `extractWeeklyBibleRead` for a run in which every anchor
resolved successfully: `anchors` carries the payload items in document
order and `languageCode` is `sourceHref.slice(0, 3)` of the first anchor. -/
def extractWeeklyBibleRead (anchors : List BibleAnchorData) (languageCode : String) :
    WeeklyBibleReadData :=
  let acc := anchors.foldl bibleReadStep ⟨"", 0, 0, 0, ""⟩
  { bookName := acc.bookName,
    bookNumber := acc.bookNumber,
    firstChapter := acc.firstChapter,
    lastChapter := acc.lastChapter,
    links := (List.range' acc.firstChapter (acc.lastChapter + 1 - acc.firstChapter)).map
      (mkChapterLink acc.urlPathForLinks languageCode) }

/-- The characters of a URL after its last slash. -/
def lastSegAux (l : List Char) : List Char :=
  l.foldl (fun acc c => if c = '/' then [] else acc ++ [c]) []

/-- The last path segment of a URL string. -/
def lastPathSegment (s : String) : String :=
  String.mk (lastSegAux s.data)

/-! ## `pub_mwb_scraper.mjs`: the full week program -/

/-- One song as `extractSongData` returns it. -/
structure SongData where
  songNumber : Nat
  songData : String
deriving DecidableEq, Repr

/-- One answer source of the printed question. -/
structure AnswerSource where
  contents : String
  mnemonic : String
deriving DecidableEq, Repr

/-- The printed-question record of the spiritual-gems section. -/
structure PrintedQuestion where
  scriptureMnemonic : String
  scriptureContents : String
  question : String
  answerSources : List AnswerSource
deriving DecidableEq, Repr

/-- `SpiritualGemsData` as the scraper builds it. -/
structure SpiritualGemsData where
  sectionNumber : Nat
  timeBox : Nat
  printedQuestionData : PrintedQuestion
  openEndedQuestion : String
deriving DecidableEq, Repr

/-- `BibleReadData` (the assigned-reading section). -/
structure BibleReadData where
  sectionNumber : Nat
  timeBox : Nat
  scriptureMnemonic : String
  scriptureContents : String
  studyPoint : StudyPoint
deriving DecidableEq, Repr

/-- `ChristianLivingSectionData`. -/
structure ChristianLivingSectionData where
  sectionNumber : Nat
  timeBox : Nat
  contents : String
deriving DecidableEq, Repr

/-- `CongregationBibleStudyData`. -/
structure CongregationBibleStudyData where
  sectionNumber : Nat
  timeBox : Nat
  contents : String
  references : List String
deriving DecidableEq, Repr

/-- `FullWeekProgramData`: the aggregate record `extractFullWeekProgram`
returns. -/
structure FullWeekProgramData where
  weekDateSpan : String
  startingSong : SongData
  weeklyBibleReadData : WeeklyBibleReadData
  treasuresTalk : TreasuresTalkData
  spiritualGems : SpiritualGemsData
  bibleRead : BibleReadData
  fieldMinistry : List FieldMinistryAssignmentData
  middleSong : SongData
  christianLiving : List ChristianLivingSectionData
  bibleStudy : CongregationBibleStudyData
  closingSong : SongData
deriving DecidableEq, Repr

/-- The settled outcome of every sub-extraction `extractFullWeekProgram`
performs, in the roles the code gives them. -/
structure ProgramSubResults where
  weekDateSpan : Except JsError String
  songs : Except JsError (SongData × SongData × SongData)
  weeklyBibleRead : Except JsError WeeklyBibleReadData
  treasuresTalk : Except JsError TreasuresTalkData
  spiritualGems : Except JsError SpiritualGemsData
  bibleRead : Except JsError BibleReadData
  fieldMinistry : Except JsError (List FieldMinistryAssignmentData)
  christianLiving : Except JsError (List ChristianLivingSectionData)
  bibleStudy : Except JsError CongregationBibleStudyData
deriving DecidableEq, Repr

/-- Embeds `extractFullWeekProgram` over the settled sub-extraction
outcomes: the synchronous extractions run first (week date span, christian
living, bible study), then the fanned-out ones join as `Promise.all` joins
them; any failure aborts the whole call and no partial program is built. -/
def extractFullWeekProgram (r : ProgramSubResults) : Except JsError FullWeekProgramData := do
  let weekDateSpan ← r.weekDateSpan
  let christianLiving ← r.christianLiving
  let bibleStudy ← r.bibleStudy
  let songs ← r.songs
  let weeklyBibleReadData ← r.weeklyBibleRead
  let treasuresTalk ← r.treasuresTalk
  let spiritualGems ← r.spiritualGems
  let bibleRead ← r.bibleRead
  let fieldMinistry ← r.fieldMinistry
  .ok
    { weekDateSpan := weekDateSpan,
      startingSong := songs.1,
      weeklyBibleReadData := weeklyBibleReadData,
      treasuresTalk := treasuresTalk,
      spiritualGems := spiritualGems,
      bibleRead := bibleRead,
      fieldMinistry := fieldMinistry,
      middleSong := songs.2.1,
      christianLiving := christianLiving,
      bibleStudy := bibleStudy,
      closingSong := songs.2.2 }

/-- A sample all-successful set of sub-extraction outcomes, used to
instantiate the error-propagation results on concrete data. -/
def sampleSubResults : ProgramSubResults :=
  { weekDateSpan := .ok "week of january 1",
    songs := .ok (⟨1, "song one"⟩, ⟨2, "song two"⟩, ⟨3, "song three"⟩),
    weeklyBibleRead := .ok ⟨"Genesis", 1, 2, 3, []⟩,
    treasuresTalk := .ok ⟨1, 10, "talk", [], []⟩,
    spiritualGems := .ok ⟨2, 10, ⟨"", "", "", []⟩, ""⟩,
    bibleRead := .ok ⟨3, 4, "", "", ⟨"", ""⟩⟩,
    fieldMinistry := .ok [],
    christianLiving := .ok [],
    bibleStudy := .ok ⟨7, 30, "", []⟩ }

/-! ## Theorems -/

/-- Claim C10: the shared text utilities `cleanText` and
`collapseConsecutiveLineBreaks` are total over arbitrary inputs: every
non-string value (null, undefined, numbers, objects) yields the empty
string rather than a failure, and string inputs yield strings (the latter
holds by the return type of the embedding). -/
theorem cleanText_collapse_total (v : JSVal) (h : v.isStr = false) :
    cleanText v = "" ∧ collapseConsecutiveLineBreaks v = "" := by
  cases v <;> first
  | exact ⟨rfl, rfl⟩
  | simp [JSVal.isStr] at h

/-- Witness for claim C10 at the concrete non-string input `null`. -/
theorem cleanText_collapse_total_witness :
    cleanText JSVal.null = "" ∧ collapseConsecutiveLineBreaks JSVal.null = "" :=
  cleanText_collapse_total JSVal.null (by decide)

/-- Claim C1 (refuting evaluation): `isJsonContentAcceptableForReferenceExtraction`
accepts a payload whose items list has two entries (its first guard combines
the array check and the length check with a conjunction, so the length test
can never fire for an array), and a zero-item payload makes it raise a
`TypeError` instead of returning false. -/
theorem isJsonContentAcceptable_twoItems :
    isJsonContentAcceptableForReferenceExtraction
      (JSVal.obj [("items", JSVal.arr
        [JSVal.obj [("content", JSVal.str "first item content"),
                    ("articleClasses", JSVal.str "pub-w")],
         JSVal.obj [("content", JSVal.str "second item content"),
                    ("articleClasses", JSVal.str "pub-nwtsty")]])])
      = Except.ok true
  ∧ isJsonContentAcceptableForReferenceExtraction
      (JSVal.obj [("items", JSVal.arr [])])
      = Except.error ⟨"TypeError: Cannot read properties of undefined"⟩ := by
  exact ⟨rfl, rfl⟩

/-- Claim C4: the selection-group builder fails with a structural error
whenever the span between the treasures-talk anchor and the field-ministry
headline is not exactly four elements (naming expected and actual count for
a three-element span), and whenever either headline landmark count differs
from one. -/
theorem selectionGroups_structural_errors :
    (∀ els : List DomNode, els.length ≠ 4 →
      ∃ e, getAndValidateGodsTreasuresSelections els = .error e)
  ∧ (∀ els : List DomNode, els.length = 3 →
      getAndValidateGodsTreasuresSelections els =
        .error ⟨"Unexpected number of elements for points 2 and 3. Expected 4, got 3"⟩)
  ∧ (∀ fmCount clCount : Nat, fmCount ≠ 1 ∨ clCount ≠ 1 →
      ∃ e, assertHeadlineDOMStructure fmCount clCount = .error e) := by
  refine ⟨?_, ?_, ?_⟩
  · intro els h
    unfold getAndValidateGodsTreasuresSelections
    rw [if_pos h]
    exact ⟨_, rfl⟩
  · intro els h
    unfold getAndValidateGodsTreasuresSelections
    rw [h]
    rfl
  · intro fmCount clCount h
    unfold assertHeadlineDOMStructure
    rw [if_pos h]
    exact ⟨_, rfl⟩

/-- Witness for claim C4: an empty span, a three-element span, and a
headline count of two all produce structural errors. -/
theorem selectionGroups_structural_errors_witness :
    (∃ e, getAndValidateGodsTreasuresSelections [] = .error e)
  ∧ getAndValidateGodsTreasuresSelections [⟨"div", 0⟩, ⟨"div", 1⟩, ⟨"div", 2⟩] =
      .error ⟨"Unexpected number of elements for points 2 and 3. Expected 4, got 3"⟩
  ∧ (∃ e, assertHeadlineDOMStructure 2 1 = .error e) :=
  ⟨selectionGroups_structural_errors.1 [] (by decide),
   selectionGroups_structural_errors.2.1 [⟨"div", 0⟩, ⟨"div", 1⟩, ⟨"div", 2⟩] (by decide),
   selectionGroups_structural_errors.2.2 2 1 (by decide)⟩

/-- A non-heading prefix folds the empty accumulator to itself: with no
group open, every element is dropped by the optional-chaining push. -/
theorem foldl_headlineGroupStep_nil {α : Type} (isH3 : α → Bool) (pre : List α)
    (hpre : ∀ e ∈ pre, isH3 e = false) :
    pre.foldl (headlineGroupStep isH3) [] = [] := by
  induction pre with
  | nil => rfl
  | cons p ps ih =>
    have hp := hpre p (List.mem_cons_self p ps)
    simp only [List.foldl_cons, headlineGroupStep, hp, Bool.false_eq_true, if_false,
      pushToLastGroup]
    exact ih (fun e he => hpre e (List.mem_cons_of_mem p he))

/-- Claim C9: in the group-by-heading walk, non-heading elements preceding
the first level-3 heading are silently discarded — the walk over the whole
list equals the walk over the list starting at the first heading, so the
dropped elements appear in no group and cause no error. -/
theorem buildHeadlineToContentGroups_discards_leading {α : Type} (isH3 : α → Bool)
    (pre rest : List α) (hpre : ∀ e ∈ pre, isH3 e = false) :
    buildHeadlineToContentGroups isH3 (pre ++ rest) =
      buildHeadlineToContentGroups isH3 rest := by
  unfold buildHeadlineToContentGroups
  rw [List.foldl_append, foldl_headlineGroupStep_nil isH3 pre hpre]

/-- Witness for claim C9 on a concrete flat list with one stray leading
paragraph. -/
theorem buildHeadlineToContentGroups_discards_leading_witness :
    buildHeadlineToContentGroups (fun e : DomNode => e.tag == "h3")
      ([⟨"p", 0⟩] ++ [⟨"h3", 1⟩, ⟨"p", 2⟩]) =
    buildHeadlineToContentGroups (fun e : DomNode => e.tag == "h3")
      [⟨"h3", 1⟩, ⟨"p", 2⟩] :=
  buildHeadlineToContentGroups_discards_leading (fun e : DomNode => e.tag == "h3")
    [⟨"p", 0⟩] [⟨"h3", 1⟩, ⟨"p", 2⟩] (by decide)

/-- Claim C6: the time-box extractor returns 7 for a subdued line containing
the seven-minutes pattern, 10 for the ten-minutes singular pattern, fails
when the line contains no parenthesised minute pattern, and fails when
there is no subdued-text line at all. -/
theorem getTimeBoxFromElement_cases :
    getTimeBoxFromElement (some "(7 mins.)") = .ok 7
  ∧ getTimeBoxFromElement (some "(10 min.)") = .ok 10
  ∧ (∀ t : String, findTimeBoxMatch (cleanTextS t).data = none →
      ∃ e, getTimeBoxFromElement (some t) = .error e)
  ∧ (∃ e, getTimeBoxFromElement none = .error e) := by
  refine ⟨by decide, by decide, ?_, ⟨_, rfl⟩⟩
  intro t h
  refine ⟨⟨"No selection found for selector [.du-color--textSubdued]"⟩, ?_⟩
  simp [getTimeBoxFromElement, h]

/-- Witness for claim C6: a line with no minute pattern makes the extractor
fail. -/
theorem getTimeBoxFromElement_cases_witness :
    ∃ e, getTimeBoxFromElement (some "Opening comments") = .error e :=
  getTimeBoxFromElement_cases.2.2.1 "Opening comments" (by decide)

/-- A successful per-group extraction yields a study point exactly on the
student-task branch. -/
theorem processAssignmentGroup_studyPoint (g : HeadlineGroup FMElem)
    (rec : FieldMinistryAssignmentData) (h : processAssignmentGroup g = .ok rec) :
    rec.studyPoint.isSome = rec.isStudentTask := by
  simp only [processAssignmentGroup, bind, Except.bind] at h
  repeat' split at h
  all_goals simp_all
  all_goals (cases h; simp_all)

/-- A successful per-group extraction sets `isStudentTask` to the
student-task regex test on the cleaned text of the group's first content
element. -/
theorem processAssignmentGroup_isStudentTask (g : HeadlineGroup FMElem)
    (rec : FieldMinistryAssignmentData) (c : FMElem) (cs : List FMElem)
    (hg : g.contents = c :: cs) (h : processAssignmentGroup g = .ok rec) :
    rec.isStudentTask = twoParenGroups (cleanTextS c.text).data := by
  simp only [processAssignmentGroup, hg, bind, Except.bind] at h
  repeat' split at h
  all_goals simp_all
  all_goals (cases h; simp_all)

/-- Per-element properties survive `mapM` over `Except`. -/
theorem mapM_except_forall {α β ε : Type} (f : α → Except ε β) (P : β → Prop)
    (hf : ∀ a b, f a = .ok b → P b) :
    ∀ (l : List α) (res : List β), l.mapM f = .ok res → ∀ b ∈ res, P b := by
  intro l
  induction l with
  | nil =>
    intro res h b hb
    simp only [List.mapM_nil, pure, Except.pure, Except.ok.injEq] at h
    subst h
    cases hb
  | cons a l ih =>
    intro res h b hb
    rw [List.mapM_cons] at h
    cases hfa : f a with
    | error e => rw [hfa] at h; simp [bind, Except.bind] at h
    | ok y =>
      rw [hfa] at h
      cases hml : l.mapM f with
      | error e => rw [hml] at h; simp [bind, Except.bind] at h
      | ok ys =>
        rw [hml] at h
        simp only [bind, Except.bind, pure, Except.pure, Except.ok.injEq] at h
        subst h
        rcases List.mem_cons.mp hb with rfl | hb2
        · exact hf a b hfa
        · exact ih ys hml b hb2

/-- Claim C5: every assignment record returned by `extractFieldMinistry`
has a study point exactly when it is a student task, and a successful
per-group extraction sets the student-task flag to the two-parenthesised-
groups regex test on the cleaned body text; the two cases are exhaustive
and mutually exclusive since the flag is a boolean equality. -/
theorem extractFieldMinistry_studyPoint :
    (∀ (els : List FMElem) (res : List FieldMinistryAssignmentData),
      extractFieldMinistry els = .ok res →
      ∀ rec ∈ res, rec.studyPoint.isSome = rec.isStudentTask)
  ∧ (∀ (g : HeadlineGroup FMElem) (rec : FieldMinistryAssignmentData)
      (c : FMElem) (cs : List FMElem),
      g.contents = c :: cs → processAssignmentGroup g = .ok rec →
      rec.isStudentTask = twoParenGroups (cleanTextS c.text).data) := by
  constructor
  · intro els res h rec hrec
    exact mapM_except_forall processAssignmentGroup _
      processAssignmentGroup_studyPoint _ res h rec hrec
  · intro g rec c cs hg h
    exact processAssignmentGroup_isStudentTask g rec c cs hg h

/-- Witness for claim C5 on a concrete student-task assignment. -/
theorem extractFieldMinistry_studyPoint_witness :
    (FieldMinistryAssignmentData.mk 4 3 true "Starting a Conversation" "Do thing"
      (some ⟨"lesson 5", "study content"⟩)).studyPoint.isSome =
    (FieldMinistryAssignmentData.mk 4 3 true "Starting a Conversation" "Do thing"
      (some ⟨"lesson 5", "study content"⟩)).isStudentTask :=
  extractFieldMinistry_studyPoint.1
    [⟨"h3", "4. Starting a Conversation", none, []⟩,
     ⟨"div", "(3 min.) Do thing (lesson 5)", some "(3 min.)",
       [⟨"lesson 5", Except.ok ⟨true, false, "study content"⟩⟩]⟩]
    [⟨4, 3, true, "Starting a Conversation", "Do thing",
      some ⟨"lesson 5", "study content"⟩⟩]
    (by decide) _ (by decide)

/-- Claim C7: for a student-task body whose cleaned text is the three-minute
do-thing sample, the stored contents equal the text strictly between the
two parenthesised groups with surrounding whitespace stripped. -/
theorem extractFieldMinistry_betweenParens :
    extractFieldMinistry
      [⟨"h3", "4. Starting a Conversation", none, []⟩,
       ⟨"div", "(3 min.) Do thing (lesson 5)", some "(3 min.)",
         [⟨"lesson 5", Except.ok ⟨true, false, "study content"⟩⟩]⟩]
      = Except.ok [⟨4, 3, true, "Starting a Conversation", "Do thing",
          some ⟨"lesson 5", "study content"⟩⟩]
  ∧ extractBetweenParentheses "(3 min.) Do thing (lesson 5)" = "Do thing" := by
  exact ⟨by decide, by decide⟩

/-- The inner reference loop assigns the consecutive ids following the
incoming counter, in encounter order, and records exactly those ids in the
footnote entries. -/
theorem processTalkRefs_spec (rs : List RefAnchor) :
    ∀ (key : Nat) (text : String) (kf : Nat) (tf : String) (ids : List Nat)
      (fns : List (Nat × String)),
    processTalkRefs key text rs = .ok (kf, tf, ids, fns) →
    ids = List.range' (key + 1) rs.length ∧ fns.map Prod.fst = ids ∧
      kf = key + rs.length := by
  induction rs with
  | nil =>
    intro key text kf tf ids fns h
    simp only [processTalkRefs, Except.ok.injEq, Prod.mk.injEq] at h
    obtain ⟨rfl, rfl, rfl, rfl⟩ := h
    simp [List.range']
  | cons r rs ih =>
    intro key text kf tf ids fns h
    simp only [processTalkRefs, bind, Except.bind] at h
    cases hres : r.resolved with
    | error e => rw [hres] at h; simp at h
    | ok refData =>
      rw [hres] at h
      cases hrec : processTalkRefs (key + 1)
          (replaceFirst text (cleanTextS r.text)
            (cleanTextS r.text ++ "[^" ++ toString (key + 1) ++ "]")) rs with
      | error e => rw [hrec] at h; simp at h
      | ok quad =>
        obtain ⟨a, b, c, d⟩ := quad
        rw [hrec] at h
        simp only [Except.ok.injEq, Prod.mk.injEq] at h
        obtain ⟨rfl, rfl, rfl, rfl⟩ := h
        obtain ⟨hc, hd, ha⟩ := ih (key + 1)
          (replaceFirst text (cleanTextS r.text)
            (cleanTextS r.text ++ "[^" ++ toString (key + 1) ++ "]"))
          a b c d hrec
        simp only [List.length_cons]
        refine ⟨?_, ?_, ?_⟩
        · rw [List.range'_succ, hc]
        · simp [hd]
        · omega

/-- The outer point loop threads the counter: a successful run assigns the
consecutive ids following the incoming counter across all points, and the
footnote entries record exactly those ids in order. -/
theorem processTalkPoints_spec (ps : List TalkPointInput) :
    ∀ (key k2 : Nat) (pts : List TalkPoint) (fns : List (Nat × String)),
    processTalkPoints key ps = .ok (k2, pts, fns) →
    fns.map Prod.fst = (pts.map TalkPoint.footnotes).flatten
    ∧ (pts.map TalkPoint.footnotes).flatten = List.range' (key + 1) fns.length
    ∧ k2 = key + fns.length := by
  induction ps with
  | nil =>
    intro key k2 pts fns h
    simp only [processTalkPoints, Except.ok.injEq, Prod.mk.injEq] at h
    obtain ⟨rfl, rfl, rfl⟩ := h
    simp [List.range']
  | cons p ps ih =>
    intro key k2 pts fns h
    simp only [processTalkPoints, bind, Except.bind] at h
    cases hr : processTalkRefs key (cleanTextS p.text) p.refs with
    | error e => rw [hr] at h; simp at h
    | ok quad =>
      obtain ⟨k1, tf, ids, fns1⟩ := quad
      rw [hr] at h
      dsimp only at h
      cases hp : processTalkPoints k1 ps with
      | error e => rw [hp] at h; simp at h
      | ok trip =>
        obtain ⟨k2a, ptsa, fns2⟩ := trip
        rw [hp] at h
        simp only [Except.ok.injEq, Prod.mk.injEq] at h
        obtain ⟨rfl, rfl, rfl⟩ := h
        obtain ⟨hids, hfns1, hk1⟩ := processTalkRefs_spec p.refs key
          (cleanTextS p.text) k1 tf ids fns1 hr
        obtain ⟨hjoin2, hrange2, hk2⟩ := ih k1 k2a ptsa fns2 hp
        have hlen1 : fns1.length = p.refs.length := by
          have := congrArg List.length hfns1
          simpa [hids] using this
        refine ⟨?_, ?_, ?_⟩
        · simp [List.map_append, hfns1, hjoin2]
        · have hstart : k1 + 1 = key + 1 + p.refs.length := by omega
          have hsplit : ids ++ (ptsa.map TalkPoint.footnotes).flatten =
              List.range' (key + 1) p.refs.length ++
              List.range' (key + 1 + p.refs.length) fns2.length := by
            rw [hids, hrange2, hstart]
          have happ : List.range' (key + 1) p.refs.length ++
              List.range' (key + 1 + p.refs.length) fns2.length =
              List.range' (key + 1) (p.refs.length + fns2.length) := by
            have h2 := List.range'_append (key + 1) p.refs.length fns2.length 1
            simpa [Nat.add_comm] using h2
          simp only [List.map_cons, List.flatten_cons]
          rw [hsplit, happ]
          simp [List.length_append, hlen1]
        · simp only [List.length_append]
          omega

/-- Claim C3: for every talk returned by `extractTreasuresTalk`, the
footnote ids listed across the points equal, in order, the keys of the
footnotes mapping (so no orphan and no unused ids), and they are exactly
the consecutive integers starting at 1 in anchor-encounter order, hence
strictly increasing and unique within the talk. -/
theorem extractTreasuresTalk_footnote_ids (input : TalkInput) (talk : TreasuresTalkData)
    (h : extractTreasuresTalk input = .ok talk) :
    talk.footnotes.map Prod.fst = (talk.points.map TalkPoint.footnotes).flatten
  ∧ (talk.points.map TalkPoint.footnotes).flatten =
      List.range' 1 talk.footnotes.length := by
  simp only [extractTreasuresTalk, bind, Except.bind] at h
  cases h1 : getSectionNumberFromElement input.sectionLineText with
  | error e => rw [h1] at h; simp at h
  | ok sn =>
    rw [h1] at h
    cases h2 : getTimeBoxFromElement input.subduedLineText with
    | error e => rw [h2] at h; simp at h
    | ok tb =>
      rw [h2] at h
      cases h3 : processTalkPoints 0 input.points with
      | error e => rw [h3] at h; simp at h
      | ok trip =>
        obtain ⟨k, pts, fns⟩ := trip
        rw [h3] at h
        dsimp only at h
        simp only [Except.ok.injEq] at h
        subst h
        obtain ⟨ha, hb, _⟩ := processTalkPoints_spec input.points 0 k pts fns h3
        exact ⟨ha, by simpa using hb⟩

/-- Witness for claim C3 on a concrete two-point talk with three anchors. -/
theorem extractTreasuresTalk_footnote_ids_witness :
    (TreasuresTalkData.mk 1 10 "Treasures"
        [⟨"Point one re1[^1] tail", [1]⟩, ⟨"Point two re2[^2] and re3[^3]", [2, 3]⟩]
        [(1, "c1"), (2, "c2"), (3, "c3")]).footnotes.map Prod.fst =
      ((TreasuresTalkData.mk 1 10 "Treasures"
        [⟨"Point one re1[^1] tail", [1]⟩, ⟨"Point two re2[^2] and re3[^3]", [2, 3]⟩]
        [(1, "c1"), (2, "c2"), (3, "c3")]).points.map TalkPoint.footnotes).flatten
  ∧ ((TreasuresTalkData.mk 1 10 "Treasures"
        [⟨"Point one re1[^1] tail", [1]⟩, ⟨"Point two re2[^2] and re3[^3]", [2, 3]⟩]
        [(1, "c1"), (2, "c2"), (3, "c3")]).points.map TalkPoint.footnotes).flatten =
      List.range' 1 (TreasuresTalkData.mk 1 10 "Treasures"
        [⟨"Point one re1[^1] tail", [1]⟩, ⟨"Point two re2[^2] and re3[^3]", [2, 3]⟩]
        [(1, "c1"), (2, "c2"), (3, "c3")]).footnotes.length :=
  extractTreasuresTalk_footnote_ids
    ⟨"1. Treasures", some "(10 min.)", "Treasures",
      [⟨"Point one re1 tail", [⟨"re1", Except.ok ⟨true, false, "c1"⟩⟩]⟩,
       ⟨"Point two re2 and re3", [⟨"re2", Except.ok ⟨false, true, "c2"⟩⟩,
                                  ⟨"re3", Except.ok ⟨false, false, "c3"⟩⟩]⟩]⟩
    (TreasuresTalkData.mk 1 10 "Treasures"
      [⟨"Point one re1[^1] tail", [1]⟩, ⟨"Point two re2[^2] and re3[^3]", [2, 3]⟩]
      [(1, "c1"), (2, "c2"), (3, "c3")])
    (by decide)

/-- The wrapper built by `withErrorHandling` always returns an explicit
error-result pair: on success the error slot is null and the value slot
carries the non-error result; when the computation throws or returns an
`Error` instance, the error slot carries it and the value slot is null. -/
theorem withErrorHandling_spec {α : Type} (f : α → Except JsError JSVal) (x : α)
    (hnn : ∀ v, f x = .ok v → v ≠ JSVal.null) :
    (∃ v, f x = .ok v ∧ v.isError = false ∧
      withErrorHandling f x = (JSVal.null, v) ∧ v ≠ JSVal.null)
  ∨ (∃ e, withErrorHandling f x = (e, JSVal.null) ∧ e.isError = true) := by
  cases hfx : f x with
  | error e =>
    exact Or.inr ⟨JSVal.error e.msg, by simp [withErrorHandling, hfx], rfl⟩
  | ok v =>
    cases hv : v.isError with
    | true => exact Or.inr ⟨v, by simp [withErrorHandling, hfx, hv], hv⟩
    | false => exact Or.inl ⟨v, rfl, hv, by simp [withErrorHandling, hfx, hv], hnn v hfx⟩

/-- `extractFullWeekProgram` succeeds exactly when every sub-extraction
succeeds, and when it fails its error is the error of one of the
sub-extractions: nothing partial is ever returned. -/
theorem extractFullWeekProgram_propagation (r : ProgramSubResults) :
    ((extractFullWeekProgram r).isOk = true ↔
      (r.weekDateSpan.isOk = true ∧ r.songs.isOk = true ∧
       r.weeklyBibleRead.isOk = true ∧ r.treasuresTalk.isOk = true ∧
       r.spiritualGems.isOk = true ∧ r.bibleRead.isOk = true ∧
       r.fieldMinistry.isOk = true ∧ r.christianLiving.isOk = true ∧
       r.bibleStudy.isOk = true))
  ∧ (∀ e, extractFullWeekProgram r = .error e →
      r.weekDateSpan = .error e ∨ r.songs = .error e ∨ r.weeklyBibleRead = .error e ∨
      r.treasuresTalk = .error e ∨ r.spiritualGems = .error e ∨ r.bibleRead = .error e ∨
      r.fieldMinistry = .error e ∨ r.christianLiving = .error e ∨
      r.bibleStudy = .error e) := by
  obtain ⟨f1, f2, f3, f4, f5, f6, f7, f8, f9⟩ := r
  cases f1 with
  | error e => simp [extractFullWeekProgram, bind, Except.bind, Except.isOk, Except.toBool]
  | ok v1 =>
  cases f8 with
  | error e => simp [extractFullWeekProgram, bind, Except.bind, Except.isOk, Except.toBool]
  | ok v8 =>
  cases f9 with
  | error e => simp [extractFullWeekProgram, bind, Except.bind, Except.isOk, Except.toBool]
  | ok v9 =>
  cases f2 with
  | error e => simp [extractFullWeekProgram, bind, Except.bind, Except.isOk, Except.toBool]
  | ok v2 =>
  cases f3 with
  | error e => simp [extractFullWeekProgram, bind, Except.bind, Except.isOk, Except.toBool]
  | ok v3 =>
  cases f4 with
  | error e => simp [extractFullWeekProgram, bind, Except.bind, Except.isOk, Except.toBool]
  | ok v4 =>
  cases f5 with
  | error e => simp [extractFullWeekProgram, bind, Except.bind, Except.isOk, Except.toBool]
  | ok v5 =>
  cases f6 with
  | error e => simp [extractFullWeekProgram, bind, Except.bind, Except.isOk, Except.toBool]
  | ok v6 =>
  cases f7 with
  | error e => simp [extractFullWeekProgram, bind, Except.bind, Except.isOk, Except.toBool]
  | ok v7 => simp [extractFullWeekProgram, bind, Except.bind, Except.isOk, Except.toBool]

/-- Claim C8: operations wrapped with `withErrorHandling` never raise to
their caller — they return a pair with the error or the value and the other
slot null — and any sub-extraction failure makes `extractFullWeekProgram`
fail with that sub-extraction's error, returning no partial program. -/
theorem withErrorHandling_and_propagation {α : Type} (f : α → Except JsError JSVal)
    (x : α) (hnn : ∀ v, f x = .ok v → v ≠ JSVal.null) (r : ProgramSubResults) :
    ((∃ v, f x = .ok v ∧ v.isError = false ∧
        withErrorHandling f x = (JSVal.null, v) ∧ v ≠ JSVal.null)
      ∨ (∃ e, withErrorHandling f x = (e, JSVal.null) ∧ e.isError = true))
  ∧ ((extractFullWeekProgram r).isOk = true ↔
      (r.weekDateSpan.isOk = true ∧ r.songs.isOk = true ∧
       r.weeklyBibleRead.isOk = true ∧ r.treasuresTalk.isOk = true ∧
       r.spiritualGems.isOk = true ∧ r.bibleRead.isOk = true ∧
       r.fieldMinistry.isOk = true ∧ r.christianLiving.isOk = true ∧
       r.bibleStudy.isOk = true))
  ∧ (∀ e, extractFullWeekProgram r = .error e →
      r.weekDateSpan = .error e ∨ r.songs = .error e ∨ r.weeklyBibleRead = .error e ∨
      r.treasuresTalk = .error e ∨ r.spiritualGems = .error e ∨ r.bibleRead = .error e ∨
      r.fieldMinistry = .error e ∨ r.christianLiving = .error e ∨
      r.bibleStudy = .error e) :=
  ⟨withErrorHandling_spec f x hnn,
   (extractFullWeekProgram_propagation r).1,
   (extractFullWeekProgram_propagation r).2⟩

/-- Witness for claim C8: a concrete wrapped operation and the sample
sub-results; the aggregate succeeds because every sub-extraction does. -/
theorem withErrorHandling_and_propagation_witness :
    (extractFullWeekProgram sampleSubResults).isOk = true :=
  (withErrorHandling_and_propagation (fun _ : Unit => Except.ok (JSVal.str "payload")) ()
    (fun v h => by
      injection h with h2
      subst h2
      exact fun hn => JSVal.noConfusion hn)
    sampleSubResults).2.1.mpr (by decide)

/-- The last-segment fold forgets its accumulator once the list contains a
slash. -/
theorem foldl_segStep_indep (b : List Char) (h : '/' ∈ b) (acc1 acc2 : List Char) :
    b.foldl (fun acc c => if c = '/' then [] else acc ++ [c]) acc1 =
    b.foldl (fun acc c => if c = '/' then [] else acc ++ [c]) acc2 := by
  induction b generalizing acc1 acc2 with
  | nil => cases h
  | cons c rest ih =>
    by_cases hc : c = '/'
    · subst hc
      simp
    · have hrest : '/' ∈ rest := by
        rcases List.mem_cons.mp h with h1 | h1
        · exact absurd h1.symm hc
        · exact h1
      simp only [List.foldl_cons, if_neg hc]
      exact ih hrest _ _

/-- Prepending anything before a slash-containing suffix leaves the last
segment unchanged. -/
theorem lastSegAux_append (a b : List Char) (h : '/' ∈ b) :
    lastSegAux (a ++ b) = lastSegAux b := by
  unfold lastSegAux
  rw [List.foldl_append]
  exact foldl_segStep_indep b h _ _

/-- Without a slash the last-segment fold appends the whole list to the
accumulator. -/
theorem foldl_segStep_no_slash (l : List Char) (h : ∀ c ∈ l, c ≠ '/') :
    ∀ acc, l.foldl (fun acc c => if c = '/' then [] else acc ++ [c]) acc = acc ++ l := by
  induction l with
  | nil => intro acc; simp
  | cons c rest ih =>
    intro acc
    have hc := h c (List.mem_cons_self c rest)
    simp only [List.foldl_cons, if_neg hc]
    rw [ih (fun x hx => h x (List.mem_cons_of_mem c hx))]
    simp

/-- A slash-free list is its own last segment. -/
theorem lastSegAux_no_slash (l : List Char) (h : ∀ c ∈ l, c ≠ '/') :
    lastSegAux l = l := by
  unfold lastSegAux
  rw [foldl_segStep_no_slash l h []]
  simp

/-- The default of `getLastD` is irrelevant on a nonempty list. -/
theorem getLastD_indep {α : Type} (l : List α) (h : l ≠ []) (d d' : α) :
    l.getLastD d = l.getLastD d' := by
  cases l with
  | nil => contradiction
  | cons a t => rw [List.getLastD_cons, List.getLastD_cons]

/-- The last segment of a slash-join is the last part, provided that part
contains no slash. -/
theorem lastSegAux_joinSlash (parts : List (List Char)) (h : parts ≠ [])
    (hlast : ∀ c ∈ parts.getLastD [], c ≠ '/') :
    lastSegAux (joinSlash parts) = parts.getLastD [] := by
  induction parts with
  | nil => contradiction
  | cons p rest ih =>
    cases rest with
    | nil =>
      simp only [List.getLastD_cons, List.getLastD_nil] at hlast ⊢
      exact lastSegAux_no_slash p hlast
    | cons q rest2 =>
      have hmem : '/' ∈ ('/' :: joinSlash (q :: rest2)) := List.mem_cons_self _ _
      rw [joinSlash, lastSegAux_append p _ hmem]
      have hskip : lastSegAux ('/' :: joinSlash (q :: rest2)) =
          lastSegAux (joinSlash (q :: rest2)) := by
        unfold lastSegAux
        simp
      rw [hskip]
      have hq : (q :: rest2) ≠ ([] : List (List Char)) := by simp
      have hlast2 : ∀ c ∈ (q :: rest2).getLastD [], c ≠ '/' := by
        intro c hc
        apply hlast c
        rw [List.getLastD_cons]
        rw [getLastD_indep (q :: rest2) hq [] p] at hc
        exact hc
      rw [ih hq hlast2]
      conv_rhs => rw [List.getLastD_cons]
      exact getLastD_indep (q :: rest2) hq [] p

/-- Setting the last position of a nonempty list makes the new value its
last element. -/
theorem getLastD_set_last {α : Type} (l : List α) (x : α) :
    ∀ d, l ≠ [] → (l.set (l.length - 1) x).getLastD d = x := by
  induction l with
  | nil => intro d h; contradiction
  | cons a t ih =>
    intro d h
    cases t with
    | nil => rfl
    | cons b t2 =>
      have hidx : (a :: b :: t2).length - 1 = ((b :: t2).length - 1) + 1 := by
        simp
      rw [hidx, List.set_cons_succ, List.getLastD_cons]
      exact ih a (by simp)

/-- A join of at least two parts contains a slash. -/
theorem joinSlash_mem_slash (parts : List (List Char)) (h : 2 ≤ parts.length) :
    '/' ∈ joinSlash parts := by
  cases parts with
  | nil => simp at h
  | cons p rest =>
    cases rest with
    | nil => simp at h
    | cons q rest2 =>
      rw [joinSlash]
      exact List.mem_append_right p (List.mem_cons_self _ _)

/-- `splitSlash` never returns the empty list. -/
theorem splitSlash_ne_nil (l : List Char) : splitSlash l ≠ [] := by
  induction l with
  | nil => simp [splitSlash]
  | cons c rest ih =>
    unfold splitSlash
    by_cases hc : c = '/'
    · simp [hc]
    · simp only [if_neg hc]
      cases hm : splitSlash rest with
      | nil => simp
      | cons p ps => simp

/-- A slash in the input splits it into at least two parts. -/
theorem splitSlash_length_ge_two (l : List Char) (h : '/' ∈ l) :
    2 ≤ (splitSlash l).length := by
  induction l with
  | nil => cases h
  | cons c rest ih =>
    unfold splitSlash
    by_cases hc : c = '/'
    · simp only [if_pos hc, List.length_cons]
      have h1 : 1 ≤ (splitSlash rest).length :=
        List.length_pos.mpr (splitSlash_ne_nil rest)
      omega
    · have hrest : '/' ∈ rest := by
        rcases List.mem_cons.mp h with h1 | h1
        · exact absurd h1.symm hc
        · exact h1
      simp only [if_neg hc]
      cases hm : splitSlash rest with
      | nil => exact absurd hm (splitSlash_ne_nil rest)
      | cons p ps =>
        have := ih hrest
        rw [hm] at this
        simpa using this

/-- No digit character is a slash. -/
theorem digitChar_ne_slash (m : Nat) : Nat.digitChar m ≠ '/' := by
  rcases Nat.lt_or_ge m 16 with h | h
  · interval_cases m <;> decide
  · have hstar : Nat.digitChar m = '*' := by
      unfold Nat.digitChar
      have e0 : m ≠ 0 := by omega
      have e1 : m ≠ 1 := by omega
      have e2 : m ≠ 2 := by omega
      have e3 : m ≠ 3 := by omega
      have e4 : m ≠ 4 := by omega
      have e5 : m ≠ 5 := by omega
      have e6 : m ≠ 6 := by omega
      have e7 : m ≠ 7 := by omega
      have e8 : m ≠ 8 := by omega
      have e9 : m ≠ 9 := by omega
      have e10 : m ≠ 10 := by omega
      have e11 : m ≠ 11 := by omega
      have e12 : m ≠ 12 := by omega
      have e13 : m ≠ 13 := by omega
      have e14 : m ≠ 14 := by omega
      have e15 : m ≠ 15 := by omega
      simp only [if_neg e0, if_neg e1, if_neg e2, if_neg e3, if_neg e4, if_neg e5,
        if_neg e6, if_neg e7, if_neg e8, if_neg e9, if_neg e10, if_neg e11,
        if_neg e12, if_neg e13, if_neg e14, if_neg e15]
    rw [hstar]
    decide

/-- The digit accumulator of `Nat.toDigitsCore` never introduces a slash. -/
theorem toDigitsCore_no_slash (fuel : Nat) :
    ∀ (n : Nat) (acc : List Char), (∀ c ∈ acc, c ≠ '/') →
    ∀ c ∈ Nat.toDigitsCore 10 fuel n acc, c ≠ '/' := by
  induction fuel with
  | zero => intro n acc hacc c hc; exact hacc c hc
  | succ fuel ih =>
    intro n acc hacc c hc
    rw [Nat.toDigitsCore] at hc
    have hcons : ∀ x ∈ Nat.digitChar (n % 10) :: acc, x ≠ '/' := by
      intro x hx
      rcases List.mem_cons.mp hx with rfl | hx2
      · exact digitChar_ne_slash (n % 10)
      · exact hacc x hx2
    by_cases hz : n / 10 = 0
    · rw [if_pos hz] at hc
      exact hcons c hc
    · rw [if_neg hz] at hc
      exact ih (n / 10) (Nat.digitChar (n % 10) :: acc) hcons c hc

/-- The decimal representation of a number contains no slash. -/
theorem repr_no_slash (n : Nat) : ∀ c ∈ (Nat.repr n).data, c ≠ '/' := by
  intro c hc
  have : (Nat.repr n).data = Nat.toDigitsCore 10 (n + 1) n [] := rfl
  rw [this] at hc
  exact toDigitsCore_no_slash (n + 1) n [] (by intro x hx; cases hx) c hc

/-- The last path segment of a synthesized chapter link is the decimal
chapter number, whenever the first anchor's URL contains a slash. -/
theorem lastPathSegment_mkChapterLink (url languageCode : String) (chapter : Nat)
    (h : '/' ∈ url.data) :
    lastPathSegment (mkChapterLink url languageCode chapter) = Nat.repr chapter := by
  unfold mkChapterLink lastPathSegment
  have hlen : 2 ≤ (splitSlash url.data).length := splitSlash_length_ge_two url.data h
  have hne : splitSlash url.data ≠ [] := splitSlash_ne_nil url.data
  have hlen2 : 2 ≤ ((splitSlash url.data).set ((splitSlash url.data).length - 1)
      (Nat.repr chapter).data).length := by
    rw [List.length_set]; exact hlen
  have hne2 : (splitSlash url.data).set ((splitSlash url.data).length - 1)
      (Nat.repr chapter).data ≠ [] := by
    intro hh
    rw [hh] at hlen2
    simp at hlen2
  have hslash : '/' ∈ joinSlash ((splitSlash url.data).set
      ((splitSlash url.data).length - 1) (Nat.repr chapter).data) :=
    joinSlash_mem_slash _ hlen2
  have hlastpart : ((splitSlash url.data).set ((splitSlash url.data).length - 1)
      (Nat.repr chapter).data).getLastD [] = (Nat.repr chapter).data :=
    getLastD_set_last (splitSlash url.data) (Nat.repr chapter).data [] hne
  have hdata : ("https://wol.jw.org" ++ languageCode ++
      String.mk (joinSlash ((splitSlash url.data).set
        ((splitSlash url.data).length - 1) (Nat.repr chapter).data))).data =
      ("https://wol.jw.org" ++ languageCode).data ++
      joinSlash ((splitSlash url.data).set
        ((splitSlash url.data).length - 1) (Nat.repr chapter).data) := by
    rw [String.data_append]
  rw [hdata, lastSegAux_append _ _ hslash,
    lastSegAux_joinSlash _ hne2 (by rw [hlastpart]; exact repr_no_slash chapter),
    hlastpart]

/-- A running minimum never exceeds its starting value. -/
theorem foldl_min_le_init (l : List Nat) : ∀ init : Nat, l.foldl min init ≤ init := by
  induction l with
  | nil => intro init; exact Nat.le_refl init
  | cons a t ih =>
    intro init
    calc t.foldl min (min init a) ≤ min init a := ih (min init a)
    _ ≤ init := Nat.min_le_left init a

/-- A running minimum never exceeds any list element. -/
theorem foldl_min_le_mem (l : List Nat) :
    ∀ (init x : Nat), x ∈ l → l.foldl min init ≤ x := by
  induction l with
  | nil => intro init x hx; cases hx
  | cons a t ih =>
    intro init x hx
    rcases List.mem_cons.mp hx with rfl | hx2
    · calc t.foldl min (min init x) ≤ min init x := foldl_min_le_init t (min init x)
      _ ≤ x := Nat.min_le_right init x
    · exact ih (min init a) x hx2

/-- A running minimum is the starting value or one of the elements. -/
theorem foldl_min_mem (l : List Nat) :
    ∀ init : Nat, l.foldl min init = init ∨ l.foldl min init ∈ l := by
  induction l with
  | nil => intro init; exact Or.inl rfl
  | cons a t ih =>
    intro init
    rcases ih (min init a) with h | h
    · rcases min_choice init a with hm | hm
      · rw [List.foldl_cons, h, hm]
        exact Or.inl rfl
      · rw [List.foldl_cons, h, hm]
        exact Or.inr (List.mem_cons_self a t)
    · exact Or.inr (List.mem_cons_of_mem a h)

/-- A running maximum is at least its starting value. -/
theorem foldl_max_ge_init (l : List Nat) : ∀ init : Nat, init ≤ l.foldl max init := by
  induction l with
  | nil => intro init; exact Nat.le_refl init
  | cons a t ih =>
    intro init
    calc init ≤ max init a := Nat.le_max_left init a
    _ ≤ t.foldl max (max init a) := ih (max init a)

/-- A running maximum is at least any list element. -/
theorem foldl_max_ge_mem (l : List Nat) :
    ∀ (init x : Nat), x ∈ l → x ≤ l.foldl max init := by
  induction l with
  | nil => intro init x hx; cases hx
  | cons a t ih =>
    intro init x hx
    rcases List.mem_cons.mp hx with rfl | hx2
    · calc x ≤ max init x := Nat.le_max_right init x
      _ ≤ t.foldl max (max init x) := foldl_max_ge_init t (max init x)
    · exact ih (max init a) x hx2

/-- A running maximum is the starting value or one of the elements. -/
theorem foldl_max_mem (l : List Nat) :
    ∀ init : Nat, l.foldl max init = init ∨ l.foldl max init ∈ l := by
  induction l with
  | nil => intro init; exact Or.inl rfl
  | cons a t ih =>
    intro init
    rcases ih (max init a) with h | h
    · rcases max_choice init a with hm | hm
      · rw [List.foldl_cons, h, hm]
        exact Or.inl rfl
      · rw [List.foldl_cons, h, hm]
        exact Or.inr (List.mem_cons_self a t)
    · exact Or.inr (List.mem_cons_of_mem a h)

/-- Once the URL path is initialised, the anchor loop only narrows the
chapter bounds: the fold reduces to a running minimum and maximum. -/
theorem bibleRead_foldl_inv (rest : List BibleAnchorData) :
    ∀ acc : BibleReadAccum, acc.urlPathForLinks ≠ "" →
    rest.foldl bibleReadStep acc =
      ⟨acc.bookName, acc.bookNumber,
       rest.foldl (fun m a => min m a.first_chapter) acc.firstChapter,
       rest.foldl (fun m a => max m a.last_chapter) acc.lastChapter,
       acc.urlPathForLinks⟩ := by
  induction rest with
  | nil => intro acc h; rfl
  | cons a t ih =>
    intro acc h
    have hstep : bibleReadStep acc a =
        ⟨acc.bookName, acc.bookNumber, min acc.firstChapter a.first_chapter,
         max acc.lastChapter a.last_chapter, acc.urlPathForLinks⟩ := by
      simp [bibleReadStep, h]
    simp only [List.foldl_cons, hstep]
    exact ih _ h

/-- Claim C2: in a run of `extractWeeklyBibleRead` where every anchor
resolved successfully (to passage items with ordered chapter bounds, the
first carrying a slash-containing URL), the result's first chapter is the
minimum first chapter and its last chapter the maximum last chapter over
all anchors, the links list has length exactly last minus first plus one,
and the last path segment of the first link is the first chapter. -/
theorem extractWeeklyBibleRead_bounds_links (a0 : BibleAnchorData)
    (rest : List BibleAnchorData) (languageCode : String)
    (res : WeeklyBibleReadData)
    (hres : extractWeeklyBibleRead (a0 :: rest) languageCode = res)
    (hwf : ∀ a ∈ a0 :: rest, a.first_chapter ≤ a.last_chapter)
    (hurl : '/' ∈ a0.url.data) :
    (∀ a ∈ a0 :: rest, res.firstChapter ≤ a.first_chapter)
  ∧ res.firstChapter ∈ (a0 :: rest).map BibleAnchorData.first_chapter
  ∧ (∀ a ∈ a0 :: rest, a.last_chapter ≤ res.lastChapter)
  ∧ res.lastChapter ∈ (a0 :: rest).map BibleAnchorData.last_chapter
  ∧ res.links.length = res.lastChapter - res.firstChapter + 1
  ∧ lastPathSegment (res.links.headD "") = Nat.repr res.firstChapter := by
  subst hres
  have hne : a0.url ≠ "" := by
    intro hh
    rw [hh] at hurl
    cases hurl
  have hstep0 : bibleReadStep ⟨"", 0, 0, 0, ""⟩ a0 =
      ⟨extractBookNameFromTooltipCaption a0.caption, a0.book,
       a0.first_chapter, a0.last_chapter, a0.url⟩ := by
    simp [bibleReadStep]
  have hfold : (a0 :: rest).foldl bibleReadStep ⟨"", 0, 0, 0, ""⟩ =
      ⟨extractBookNameFromTooltipCaption a0.caption, a0.book,
       rest.foldl (fun m a => min m a.first_chapter) a0.first_chapter,
       rest.foldl (fun m a => max m a.last_chapter) a0.last_chapter,
       a0.url⟩ := by
    rw [List.foldl_cons, hstep0]
    exact bibleRead_foldl_inv rest _ hne
  have hresult : extractWeeklyBibleRead (a0 :: rest) languageCode =
      { bookName := extractBookNameFromTooltipCaption a0.caption,
        bookNumber := a0.book,
        firstChapter := rest.foldl (fun m a => min m a.first_chapter) a0.first_chapter,
        lastChapter := rest.foldl (fun m a => max m a.last_chapter) a0.last_chapter,
        links := (List.range'
            (rest.foldl (fun m a => min m a.first_chapter) a0.first_chapter)
            (rest.foldl (fun m a => max m a.last_chapter) a0.last_chapter + 1 -
              rest.foldl (fun m a => min m a.first_chapter) a0.first_chapter)).map
          (mkChapterLink a0.url languageCode) } := by
    unfold extractWeeklyBibleRead
    rw [hfold]
  rw [hresult]
  have hmapmin : rest.foldl (fun m a => min m a.first_chapter) a0.first_chapter =
      (rest.map BibleAnchorData.first_chapter).foldl min a0.first_chapter := by
    rw [List.foldl_map]
  have hmapmax : rest.foldl (fun m a => max m a.last_chapter) a0.last_chapter =
      (rest.map BibleAnchorData.last_chapter).foldl max a0.last_chapter := by
    rw [List.foldl_map]
  have hFle : ∀ a ∈ a0 :: rest,
      rest.foldl (fun m a => min m a.first_chapter) a0.first_chapter ≤
        a.first_chapter := by
    intro a ha
    rw [hmapmin]
    rcases List.mem_cons.mp ha with rfl | ha2
    · exact foldl_min_le_init _ _
    · exact foldl_min_le_mem _ _ _ (List.mem_map_of_mem BibleAnchorData.first_chapter ha2)
  have hLge : ∀ a ∈ a0 :: rest,
      a.last_chapter ≤
        rest.foldl (fun m a => max m a.last_chapter) a0.last_chapter := by
    intro a ha
    rw [hmapmax]
    rcases List.mem_cons.mp ha with rfl | ha2
    · exact foldl_max_ge_init _ _
    · exact foldl_max_ge_mem _ _ _ (List.mem_map_of_mem BibleAnchorData.last_chapter ha2)
  have hFL : rest.foldl (fun m a => min m a.first_chapter) a0.first_chapter ≤
      rest.foldl (fun m a => max m a.last_chapter) a0.last_chapter := by
    calc rest.foldl (fun m a => min m a.first_chapter) a0.first_chapter
        ≤ a0.first_chapter := hFle a0 (List.mem_cons_self a0 rest)
    _ ≤ a0.last_chapter := hwf a0 (List.mem_cons_self a0 rest)
    _ ≤ rest.foldl (fun m a => max m a.last_chapter) a0.last_chapter :=
        hLge a0 (List.mem_cons_self a0 rest)
  refine ⟨hFle, ?_, hLge, ?_, ?_, ?_⟩
  · rw [List.map_cons, hmapmin]
    rcases foldl_min_mem (rest.map BibleAnchorData.first_chapter) a0.first_chapter
      with h | h
    · rw [h]; exact List.mem_cons_self _ _
    · exact List.mem_cons_of_mem _ h
  · rw [List.map_cons, hmapmax]
    rcases foldl_max_mem (rest.map BibleAnchorData.last_chapter) a0.last_chapter
      with h | h
    · rw [h]; exact List.mem_cons_self _ _
    · exact List.mem_cons_of_mem _ h
  · simp only [List.length_map, List.length_range']
    omega
  · have hn : rest.foldl (fun m a => max m a.last_chapter) a0.last_chapter + 1 -
        rest.foldl (fun m a => min m a.first_chapter) a0.first_chapter =
        (rest.foldl (fun m a => max m a.last_chapter) a0.last_chapter -
          rest.foldl (fun m a => min m a.first_chapter) a0.first_chapter) + 1 := by
      omega
    rw [hn, List.range'_succ, List.map_cons]
    exact lastPathSegment_mkChapterLink a0.url languageCode _ hurl

/-- Witness for claim C2 on a two-anchor reading spanning chapters 2 to 5. -/
theorem extractWeeklyBibleRead_bounds_links_witness :
    (extractWeeklyBibleRead
        [⟨"/wol/b/r4/lp-s/nwtsty/1/2", 1, "Genesis 2:1", 2, 3⟩,
         ⟨"/wol/b/r4/lp-s/nwtsty/1/4", 1, "Genesis 4:1", 4, 5⟩] "/es").links.length =
      (extractWeeklyBibleRead
        [⟨"/wol/b/r4/lp-s/nwtsty/1/2", 1, "Genesis 2:1", 2, 3⟩,
         ⟨"/wol/b/r4/lp-s/nwtsty/1/4", 1, "Genesis 4:1", 4, 5⟩] "/es").lastChapter -
      (extractWeeklyBibleRead
        [⟨"/wol/b/r4/lp-s/nwtsty/1/2", 1, "Genesis 2:1", 2, 3⟩,
         ⟨"/wol/b/r4/lp-s/nwtsty/1/4", 1, "Genesis 4:1", 4, 5⟩] "/es").firstChapter + 1
  ∧ lastPathSegment ((extractWeeklyBibleRead
        [⟨"/wol/b/r4/lp-s/nwtsty/1/2", 1, "Genesis 2:1", 2, 3⟩,
         ⟨"/wol/b/r4/lp-s/nwtsty/1/4", 1, "Genesis 4:1", 4, 5⟩] "/es").links.headD "") =
      Nat.repr (extractWeeklyBibleRead
        [⟨"/wol/b/r4/lp-s/nwtsty/1/2", 1, "Genesis 2:1", 2, 3⟩,
         ⟨"/wol/b/r4/lp-s/nwtsty/1/4", 1, "Genesis 4:1", 4, 5⟩] "/es").firstChapter :=
  ⟨(extractWeeklyBibleRead_bounds_links
      ⟨"/wol/b/r4/lp-s/nwtsty/1/2", 1, "Genesis 2:1", 2, 3⟩
      [⟨"/wol/b/r4/lp-s/nwtsty/1/4", 1, "Genesis 4:1", 4, 5⟩] "/es" _ rfl
      (by decide) (by decide)).2.2.2.2.1,
   (extractWeeklyBibleRead_bounds_links
      ⟨"/wol/b/r4/lp-s/nwtsty/1/2", 1, "Genesis 2:1", 2, 3⟩
      [⟨"/wol/b/r4/lp-s/nwtsty/1/4", 1, "Genesis 4:1", 4, 5⟩] "/es" _ rfl
      (by decide) (by decide)).2.2.2.2.2⟩

end PubMwb
